import Mathlib

/-!
Shallow embedding of `pbkdf2/src/hasher.rs` (the `password-hash` adapter
layer of the PBKDF2 crate): algorithm identifiers, params and their
parameter-string conversions, the canonical hasher, the legacy (MCF)
upgrader and the Base64 padding-stripping helper.

Machine integers are modelled as `Nat` with explicit `% 2 ^ 32` where the
source performs a truncating `as u32` cast.  Types that come from the
`password-hash` crate or the `simple` module (which are part of the
repository but whose source is not available here) are modelled from the
specification and carry a doc comment saying so.
-/

namespace Pbkdf2

/-- Modelled from the spec (§7): parameter-related error kinds of the
`password-hash` crate (`ParamsError`): invalid parameter name,
non-decimal / out-of-range or narrowing-failure value. -/
inductive ParamsError where
  | invalidName
  | invalidValue
deriving DecidableEq, Repr

/-- Modelled from the spec (§7): the error taxonomy of the `password-hash`
crate (`HasherError`), restricted to the kinds this adapter produces:
Algorithm (unresolvable identifier), Encoding (malformed Base64 segment or
oversized salt), Params, and Parse (malformed legacy string). -/
inductive HasherError where
  | algorithm
  | encoding
  | params (e : ParamsError)
  | parse
deriving DecidableEq, Repr

/-- PBKDF2 params (`struct Params`, hasher.rs lines 180-186): number of
rounds (a `u32`) and output length in bytes (a `usize`). -/
structure Params where
  rounds : Nat
  output_length : Nat
deriving DecidableEq, Repr

/-- `impl Default for Params` (hasher.rs lines 188-195). -/
def Params.default : Params := { rounds := 10000, output_length := 32 }

/-- Fuel-driven digit rendering: with fuel at least the number of digits,
renders `n` in decimal, most significant digit first. -/
def decRenderAux : Nat → Nat → List Char
  | 0, _ => []
  | fuel + 1, n =>
      if n < 10 then [Char.ofNat (48 + n)]
      else decRenderAux fuel (n / 10) ++ [Char.ofNat (48 + n % 10)]

/-- Modelled from the spec: canonical decimal rendering of an unsigned
value, as used by `ParamsString::add_decimal` of the `password-hash`
crate (`n + 1` is always enough fuel since a number has at most as many
digits as its value). -/
def decRender (n : Nat) : List Char := decRenderAux (n + 1) n

/-- Modelled from the spec: accumulator loop of decimal parsing; fails on
any non-digit character. -/
def parseDecAcc (acc : Nat) : List Char → Option Nat
  | [] => some acc
  | c :: cs =>
      if 48 ≤ c.toNat ∧ c.toNat ≤ 57 then
        parseDecAcc (acc * 10 + (c.toNat - 48)) cs
      else none

/-- Modelled from the spec (§4.2): `Value::decimal` of the `password-hash`
crate parses a decimal unsigned 32-bit value, failing on empty,
non-decimal or out-of-range text. -/
def parseDec (s : List Char) : Option Nat :=
  if s = [] then none
  else
    match parseDecAcc 0 s with
    | some v => if v < 2 ^ 32 then some v else none
    | none => none

/-- Modelled from the spec (§3): a `ParamsString` is an ordered mapping
from short parameter names to textual values; iteration yields entries in
order. -/
abbrev ParamsString := List (String × List Char)

/-- Modelled from the spec: `ParamsString::add_decimal` appends one entry
whose value is the canonical decimal rendering of a `u32`. -/
def addDecimal (ps : ParamsString) (name : String) (value : Nat) : ParamsString :=
  List.append ps [(name, decRender value)]

/-- Loop of `TryFrom<&ParamsString> for Params` (hasher.rs lines 203-214):
fold over the entries, overwriting `rounds` for key `i` and
`output_length` for key `l` (the `u32 → usize` narrowing is lossless on a
64-bit target), and failing with `InvalidName` on any other key. -/
def fromPSLoop (acc : Params) : List (String × List Char) → Except HasherError Params
  | [] => .ok acc
  | (k, v) :: rest =>
      if k = "i" then
        match parseDec v with
        | some d => fromPSLoop { acc with rounds := d } rest
        | none => .error (.params .invalidValue)
      else if k = "l" then
        match parseDec v with
        | some d => fromPSLoop { acc with output_length := d } rest
        | none => .error (.params .invalidValue)
      else .error (.params .invalidName)

/-- `TryFrom<&ParamsString> for Params` (hasher.rs lines 197-218): start
from `Params::default()` and overwrite fields from the entries. -/
def from_parameter_string (input : ParamsString) : Except HasherError Params :=
  fromPSLoop Params.default input

/-- `TryFrom<Params> for ParamsString` (hasher.rs lines 220-229): emit
`i = rounds` then `l = output_length as u32`; the `as u32` cast is the
truncation `% 2 ^ 32`.  `add_decimal` on these two short keys cannot fail,
so the result is always `ok`. -/
def to_parameter_string (input : Params) : Except HasherError ParamsString :=
  .ok (addDecimal (addDecimal [] "i" input.rounds) "l" (input.output_length % 2 ^ 32))

/-- PBKDF2 (SHA-1) identifier (hasher.rs line 21; an `Ident` is modelled
as its underlying string). -/
def PBKDF2_SHA1 : String := "pbkdf2"

/-- PBKDF2 (SHA-256) identifier (hasher.rs line 24). -/
def PBKDF2_SHA256 : String := "pbkdf2-sha256"

/-- PBKDF2 (SHA-512) identifier (hasher.rs line 27). -/
def PBKDF2_SHA512 : String := "pbkdf2-sha512"

/-- PBKDF2 variants (`enum AlgorithmId`, hasher.rs lines 111-121), with
the `sha1` feature enabled. -/
inductive AlgorithmId where
  | Sha1
  | Sha256
  | Sha512
deriving DecidableEq, Repr

/-- `AlgorithmId::new` (hasher.rs lines 125-133): exact match of the
identifier against the three fixed identifiers, `Algorithm` error
otherwise. -/
def AlgorithmId.new (id : String) : Except HasherError AlgorithmId :=
  if id = PBKDF2_SHA1 then .ok .Sha1
  else if id = PBKDF2_SHA256 then .ok .Sha256
  else if id = PBKDF2_SHA512 then .ok .Sha512
  else .error .algorithm

/-- `AlgorithmId::ident` (hasher.rs lines 136-143). -/
def AlgorithmId.ident : AlgorithmId → String
  | .Sha1 => PBKDF2_SHA1
  | .Sha256 => PBKDF2_SHA256
  | .Sha512 => PBKDF2_SHA512

/-- `b64_strip` (hasher.rs lines 98-103): strip trailing `=` characters
one at a time off the end of the string. -/
def b64_strip (s : List Char) : List Char :=
  if h : s.getLast? = some '=' then b64_strip s.dropLast else s
termination_by s.length
decreasing_by
  cases s with
  | nil => simp at h
  | cons a t => simp [List.length_dropLast]

/-- Modelled from the spec (§6): value of one character of the unpadded
B64 alphabet (standard Base64 alphabet without padding). -/
def b64Val (c : Char) : Option Nat :=
  if 65 ≤ c.toNat ∧ c.toNat ≤ 90 then some (c.toNat - 65)
  else if 97 ≤ c.toNat ∧ c.toNat ≤ 122 then some (c.toNat - 97 + 26)
  else if 48 ≤ c.toNat ∧ c.toNat ≤ 57 then some (c.toNat - 48 + 52)
  else if c = '+' then some 62
  else if c = '/' then some 63
  else none

/-- Modelled from the spec (§6): repack a list of 6-bit values into 8-bit
bytes (a trailing group of 2 or 3 sextets yields 1 or 2 bytes). -/
def b64Pack : List Nat → List Nat
  | a :: b :: c :: d :: rest =>
      (a * 4 + b / 16) :: ((b % 16) * 16 + c / 4) :: ((c % 4) * 64 + d) :: b64Pack rest
  | [a, b] => [a * 4 + b / 16]
  | [a, b, c] => [a * 4 + b / 16, (b % 16) * 16 + c / 4]
  | _ => []

/-- Modelled from the spec (§6): unpadded B64 decoding; fails on a
character outside the alphabet or on an encoded length `≡ 1 (mod 4)`. -/
def b64Decode (s : List Char) : Option (List Nat) :=
  if s.length % 4 = 1 then none
  else (s.mapM b64Val).map b64Pack

/-- Salt decoding step of `hash_password` (hasher.rs lines 46-47):
`salt.b64_decode(&mut salt_arr)` with a fixed 64-byte buffer; a malformed
B64 salt or a decoded length above 64 is an Encoding error. -/
def saltDecode (s : List Char) : Except HasherError (List Nat) :=
  match b64Decode s with
  | none => .error .encoding
  | some bytes => if 64 < bytes.length then .error .encoding else .ok bytes

/-- The canonical password-hash record (`PasswordHash` of the
`password-hash` crate, modelled from the spec §3): algorithm identifier,
optional version, serialized params, optional encoded salt, optional
output bytes. -/
structure PasswordHash where
  algorithm : String
  version : Option Nat
  params : ParamsString
  salt : Option (List Char)
  hash : Option (List Nat)
deriving DecidableEq, Repr

/-- The type of the external PBKDF2 derivation primitive, out of scope of
the spec: given the resolved variant, password bytes, salt bytes, rounds
and output length, it fills the output buffer
(`f(password, salt_bytes, params.rounds, out)` at hasher.rs line 57). -/
abbrev DeriveFn := AlgorithmId → List Nat → List Nat → Nat → Nat → List Nat

/-- `Pbkdf2::hash_password` (hasher.rs lines 37-68), parameterized by the
external derivation primitive: resolve the algorithm (defaulting to
`PBKDF2_SHA256` when absent), decode the salt into a 64-byte buffer, run
the derivation into a buffer of exactly `params.output_length`, serialize
the params, and assemble the record.  `Output::init_with` is modelled from
the spec (§4.3 step 3) as allocating exactly `output_length` and filling
it via the primitive. -/
def hash_password (derive : DeriveFn) (password : List Nat)
    (algorithm : Option String) (params : Params) (salt : List Char) :
    Except HasherError PasswordHash :=
  match AlgorithmId.new (algorithm.getD PBKDF2_SHA256) with
  | .error e => .error e
  | .ok alg =>
      match saltDecode salt with
      | .error e => .error e
      | .ok salt_bytes =>
          match to_parameter_string params with
          | .error e => .error e
          | .ok ps =>
              .ok { algorithm := alg.ident, version := none, params := ps,
                    salt := some salt,
                    hash := some (derive alg password salt_bytes params.rounds
                      params.output_length) }

/-- Split a character list on a separator character; `n` separators yield
`n + 1` (possibly empty) segments. -/
def splitSegs (sep : Char) : List Char → List (List Char)
  | [] => [[]]
  | c :: rest =>
      if c = sep then [] :: splitSegs sep rest
      else
        match splitSegs sep rest with
        | [] => [[c]]
        | seg :: segs => (c :: seg) :: segs

/-- Modelled from the spec (§6): `simple::parse_hash`, the legacy
(crypt-style, MCF) parser, whose exact delimiter grammar the spec leaves
to an external collaborator; it extracts `(rounds, salt_text, hash_text)`
from delimited segments or fails with a parse error.  Modelled as
`$<rounds>$<salt>$<hash>` with decimal 32-bit rounds. -/
def parse_hash (s : List Char) : Except Unit (Nat × List Char × List Char) :=
  match splitSegs '$' s with
  | [[], r, salt, hash] =>
      match parseDec r with
      | some n => .ok (n, salt, hash)
      | none => .error ()
  | _ => .error ()

/-- Modelled from the spec (§6): `Salt::new` of the `password-hash` crate
accepts a salt string whose characters all belong to the unpadded B64
alphabet. -/
def saltNew (s : List Char) : Except HasherError (List Char) :=
  if s.all (fun c => (b64Val c).isSome) then .ok s else .error .encoding

/-- Modelled from the spec (§4.4 step 2): `Output::b64_decode` of the
`password-hash` crate decodes an unpadded-B64 hash string into raw bytes,
failing with an Encoding error when malformed. -/
def outputB64Decode (s : List Char) : Except HasherError (List Nat) :=
  match b64Decode s with
  | none => .error .encoding
  | some bytes => .ok bytes

/-- `Pbkdf2::upgrade_mcf_hash` (hasher.rs lines 72-94): parse the legacy
string (collapsing any parse failure into one Parse error), strip the
padding of the salt and hash segments, decode the hash, build `Params`
with the legacy rounds and the decoded hash length, and assemble a record
fixed to the SHA-256 identifier with no version. -/
def upgrade_mcf_hash (s : List Char) : Except HasherError PasswordHash :=
  match parse_hash s with
  | .error _ => .error .parse
  | .ok (rounds, salt, hash) =>
      match saltNew (b64_strip salt) with
      | .error e => .error e
      | .ok salt' =>
          match outputB64Decode (b64_strip hash) with
          | .error e => .error e
          | .ok hashBytes =>
              match to_parameter_string
                  { rounds := rounds, output_length := hashBytes.length } with
              | .error e => .error e
              | .ok ps =>
                  .ok { algorithm := PBKDF2_SHA256, version := none,
                        params := ps, salt := some salt',
                        hash := some hashBytes }

/-! ### Lemmas about `b64_strip` -/

lemma b64_strip_getLast? (s : List Char) : (b64_strip s).getLast? ≠ some '=' := by
  induction s using b64_strip.induct with
  | case1 s h ih =>
      rw [b64_strip, dif_pos h]
      exact ih
  | case2 s h =>
      rw [b64_strip, dif_neg h]
      exact h

lemma b64_strip_no_padding (s : List Char) (h : s.getLast? ≠ some '=') :
    b64_strip s = s := by
  rw [b64_strip, dif_neg h]

lemma b64_strip_eq_dropWhile (s : List Char) :
    b64_strip s = (s.reverse.dropWhile (fun c => c = '=')).reverse := by
  induction s using List.reverseRecOn with
  | nil =>
      rw [b64_strip]
      simp
  | append_singleton l a ih =>
      by_cases ha : a = '='
      · subst ha
        rw [b64_strip, dif_pos (List.getLast?_concat l), List.dropLast_concat, ih]
        simp [List.dropWhile]
      · rw [b64_strip, dif_neg (by simp [List.getLast?_concat l, ha])]
        simp [List.dropWhile, ha]

/-- C9: `b64_strip` is a pure total function: its result never ends with
`=`, it is the identity on inputs without trailing padding, and it is
idempotent. -/
theorem b64_strip_strips_padding (s : List Char) :
    (b64_strip s).getLast? ≠ some '=' ∧
    (s.getLast? ≠ some '=' → b64_strip s = s) ∧
    b64_strip (b64_strip s) = b64_strip s := by
  refine ⟨b64_strip_getLast? s, b64_strip_no_padding s, ?_⟩
  exact b64_strip_no_padding _ (b64_strip_getLast? s)

/-- C9 witness: `b64_strip` is the identity on `"YWJj"` (no padding) and
idempotent on `"YWJj=="`. -/
theorem b64_strip_strips_padding_witness :
    b64_strip "YWJj".data = "YWJj".data ∧
    b64_strip (b64_strip "YWJj==".data) = b64_strip "YWJj==".data :=
  ⟨(b64_strip_strips_padding "YWJj".data).2.1 (by decide),
   (b64_strip_strips_padding "YWJj==".data).2.2⟩

/-! ### Lemmas about decimal rendering and parsing -/

lemma toNat_digitChar (d : Nat) (hd : d < 10) : (Char.ofNat (48 + d)).toNat = 48 + d := by
  interval_cases d <;> decide

lemma parseDecAcc_digit (acc d : Nat) (rest : List Char) (hd : d < 10) :
    parseDecAcc acc (Char.ofNat (48 + d) :: rest) = parseDecAcc (acc * 10 + d) rest := by
  have h := toNat_digitChar d hd
  simp only [parseDecAcc, h]
  rw [if_pos ⟨by omega, by omega⟩]
  have h2 : 48 + d - 48 = d := by omega
  rw [h2]

lemma decRenderAux_ne_nil (fuel n : Nat) : decRenderAux (fuel + 1) n ≠ [] := by
  rw [decRenderAux]
  by_cases h : n < 10
  · simp [h]
  · simp [h]

lemma parseDecAcc_decRenderAux (fuel : Nat) :
    ∀ n acc rest, n < fuel →
      parseDecAcc acc (decRenderAux fuel n ++ rest) =
        parseDecAcc (acc * 10 ^ (decRenderAux fuel n).length + n) rest := by
  induction fuel with
  | zero =>
      intro n _ _ h
      omega
  | succ fuel ih =>
      intro n acc rest h
      rw [decRenderAux]
      by_cases h10 : n < 10
      · rw [if_pos h10, List.singleton_append, parseDecAcc_digit acc n rest h10]
        simp
      · rw [if_neg h10]
        have hlt : n / 10 < fuel := by
          have := Nat.div_lt_self (show 0 < n by omega) (show (1 : Nat) < 10 by omega)
          omega
        rw [List.append_assoc, List.singleton_append,
          ih (n / 10) acc (Char.ofNat (48 + n % 10) :: rest) hlt,
          parseDecAcc_digit _ (n % 10) rest (Nat.mod_lt n (by omega))]
        have hlen : (decRenderAux fuel (n / 10) ++ [Char.ofNat (48 + n % 10)]).length
            = (decRenderAux fuel (n / 10)).length + 1 := by simp
        rw [hlen]
        have harg : (acc * 10 ^ (decRenderAux fuel (n / 10)).length + n / 10) * 10 + n % 10
            = acc * 10 ^ ((decRenderAux fuel (n / 10)).length + 1) + n := by
          have h1 : 10 * (n / 10) + n % 10 = n := Nat.div_add_mod n 10
          rw [pow_succ, ← mul_assoc]
          generalize (10 : Nat) ^ (decRenderAux fuel (n / 10)).length = A
          generalize hq : n / 10 = q at h1 ⊢
          generalize hr : n % 10 = r at h1 ⊢
          generalize acc * A = B
          omega
        rw [harg]

lemma parseDec_decRender (n : Nat) (hn : n < 2 ^ 32) :
    parseDec (decRender n) = some n := by
  have hne : decRender n ≠ [] := decRenderAux_ne_nil n n
  rw [parseDec, if_neg hne]
  have h := parseDecAcc_decRenderAux (n + 1) n 0 [] (Nat.lt_succ_self n)
  rw [List.append_nil] at h
  rw [decRender, h]
  simp [parseDecAcc]
  omega

/-! ### Lemmas about the params-string parsing loop -/

lemma fromPSLoop_append (acc : Params) (l₁ l₂ : List (String × List Char)) :
    fromPSLoop acc (l₁ ++ l₂) =
      match fromPSLoop acc l₁ with
      | .ok q => fromPSLoop q l₂
      | .error e => .error e := by
  induction l₁ generalizing acc with
  | nil => rfl
  | cons hd tl ih =>
      obtain ⟨k, v⟩ := hd
      simp only [List.cons_append, fromPSLoop]
      split_ifs with hi hl
      · cases parseDec v with
        | some d => exact ih _
        | none => rfl
      · cases parseDec v with
        | some d => exact ih _
        | none => rfl
      · rfl

lemma fromPSLoop_no_i (acc : Params) (ps : List (String × List Char)) (p : Params)
    (hok : fromPSLoop acc ps = .ok p) (hno : ∀ e ∈ ps, e.1 ≠ "i") :
    p.rounds = acc.rounds := by
  induction ps generalizing acc with
  | nil =>
      injection hok with hok
      rw [← hok]
  | cons hd tl ih =>
      obtain ⟨k, v⟩ := hd
      simp only [fromPSLoop] at hok
      split_ifs at hok with hi hl
      · exact absurd hi (hno (k, v) (List.mem_cons_self _ _))
      · cases hv : parseDec v with
        | some d =>
            simp only [hv] at hok
            exact ih { acc with output_length := d } hok
              fun e he => hno e (List.mem_cons_of_mem _ he)
        | none =>
            simp only [hv] at hok
            exact Except.noConfusion hok

lemma fromPSLoop_no_l (acc : Params) (ps : List (String × List Char)) (p : Params)
    (hok : fromPSLoop acc ps = .ok p) (hno : ∀ e ∈ ps, e.1 ≠ "l") :
    p.output_length = acc.output_length := by
  induction ps generalizing acc with
  | nil =>
      injection hok with hok
      rw [← hok]
  | cons hd tl ih =>
      obtain ⟨k, v⟩ := hd
      simp only [fromPSLoop] at hok
      split_ifs at hok with hi hl
      · cases hv : parseDec v with
        | some d =>
            simp only [hv] at hok
            exact ih { acc with rounds := d } hok
              fun e he => hno e (List.mem_cons_of_mem _ he)
        | none =>
            simp only [hv] at hok
            exact Except.noConfusion hok
      · exact absurd hl (hno (k, v) (List.mem_cons_self _ _))

/-! ### Claim theorems -/

/-- C1: the claim says serializing `Params` fails with a validation error
when `output_length` does not fit in 32 bits and never silently
truncates.  The code (`input.output_length as u32`, hasher.rs line 226)
does the opposite: at `output_length = 2 ^ 32` serialization succeeds
with the silently truncated entry `l = 0`. -/
theorem to_parameter_string_truncates :
    to_parameter_string { rounds := 1, output_length := 2 ^ 32 } =
      .ok [("i", ['1']), ("l", ['0'])] := rfl

/-- C2 counterexample: `ps = [i = 1]` contains only valid decimal entries
under the keys `i` and `l`, yet
`to_parameter_string (from_parameter_string ps)` is `[i = 1, l = 32]`,
not `ps`: the serializer always emits both entries. -/
theorem roundtrip_cex :
    from_parameter_string [("i", ['1'])] = .ok { rounds := 1, output_length := 32 } ∧
    to_parameter_string { rounds := 1, output_length := 32 } =
      .ok [("i", ['1']), ("l", ['3', '2'])] ∧
    [("i", ['1']), ("l", ['3', '2'])] ≠ [("i", ['1'])] :=
  ⟨rfl, rfl, by decide⟩

/-- C2 (amended): the round-trip
`to_parameter_string (from_parameter_string ps) = ps` holds whenever `ps`
consists of exactly the two entries `i` then `l`, in that order, each
value the canonical decimal rendering of a 32-bit value. -/
theorem roundtrip_canonical (r n : Nat) (hr : r < 2 ^ 32) (hn : n < 2 ^ 32) :
    from_parameter_string [("i", decRender r), ("l", decRender n)] =
      .ok { rounds := r, output_length := n } ∧
    to_parameter_string { rounds := r, output_length := n } =
      .ok [("i", decRender r), ("l", decRender n)] := by
  constructor
  · simp [from_parameter_string, fromPSLoop, parseDec_decRender r hr,
      parseDec_decRender n hn]
  · rw [to_parameter_string, Nat.mod_eq_of_lt hn]
    rfl

/-- C2 witness: the amended round-trip at `r = 1000`, `n = 32`. -/
theorem roundtrip_canonical_witness :
    from_parameter_string [("i", decRender 1000), ("l", decRender 32)] =
      .ok { rounds := 1000, output_length := 32 } ∧
    to_parameter_string { rounds := 1000, output_length := 32 } =
      .ok [("i", decRender 1000), ("l", decRender 32)] :=
  roundtrip_canonical 1000 32 (by omega) (by omega)

/-- C3: the variant/identifier mapping is a bijection: `AlgorithmId::new`
inverts `AlgorithmId::ident` on every variant, and fails with the
Algorithm-kind error on every string that is not exactly one of the three
fixed identifiers (case variants and substrings included). -/
theorem algorithm_id_bijective :
    (∀ v : AlgorithmId, AlgorithmId.new (AlgorithmId.ident v) = .ok v) ∧
    (∀ s : String, s ≠ PBKDF2_SHA1 → s ≠ PBKDF2_SHA256 → s ≠ PBKDF2_SHA512 →
      AlgorithmId.new s = .error .algorithm) := by
  constructor
  · intro v
    cases v <;> rfl
  · intro s h1 h2 h3
    rw [AlgorithmId.new, if_neg h1, if_neg h2, if_neg h3]

/-- C3 witness: the round-trip at the SHA-256 variant, and rejection of
the case variant `"PBKDF2-SHA256"` and the substring `"pbkdf2-sha"`. -/
theorem algorithm_id_bijective_witness :
    AlgorithmId.new (AlgorithmId.ident .Sha256) = .ok .Sha256 ∧
    AlgorithmId.new "PBKDF2-SHA256" = .error .algorithm ∧
    AlgorithmId.new "pbkdf2-sha" = .error .algorithm :=
  ⟨algorithm_id_bijective.1 .Sha256,
   algorithm_id_bijective.2 "PBKDF2-SHA256" (by decide) (by decide) (by decide),
   algorithm_id_bijective.2 "pbkdf2-sha" (by decide) (by decide) (by decide)⟩

/-- C6 counterexample: `[i = "x", q = "1"]` contains the key `q`, which is
neither `i` nor `l`, yet `from_parameter_string` fails with the
invalid-value error from the earlier malformed `i` entry, not with the
invalid-parameter-name error the claim requires on every such input. -/
theorem unknown_key_cex :
    from_parameter_string [("i", ['x']), ("q", ['1'])] =
      .error (.params .invalidValue) ∧
    HasherError.params .invalidValue ≠ HasherError.params .invalidName :=
  ⟨rfl, by decide⟩

/-- C6 (amended): `from_parameter_string` fails on every parameter string
containing a key other than `i` or `l` — no unknown key is ever ignored;
and when every entry before the first unknown key is a valid `i`/`l`
entry, the error is the invalid-parameter-name error. -/
theorem unknown_key_rejected (pre post : ParamsString) (k : String)
    (v : List Char) (hk1 : k ≠ "i") (hk2 : k ≠ "l") :
    (∀ p, from_parameter_string (pre ++ (k, v) :: post) ≠ .ok p) ∧
    (∀ q, from_parameter_string pre = .ok q →
      from_parameter_string (pre ++ (k, v) :: post) =
        .error (.params .invalidName)) := by
  have hbad : ∀ acc : Params,
      fromPSLoop acc ((k, v) :: post) = .error (.params .invalidName) := by
    intro acc
    simp only [fromPSLoop]
    rw [if_neg hk1, if_neg hk2]
  constructor
  · intro p hok
    rw [from_parameter_string, fromPSLoop_append] at hok
    cases hq : fromPSLoop Params.default pre with
    | ok q =>
        rw [hq] at hok
        simp only [hbad q] at hok
        exact Except.noConfusion hok
    | error e =>
        rw [hq] at hok
        exact Except.noConfusion hok
  · intro q hq
    rw [from_parameter_string] at hq
    rw [from_parameter_string, fromPSLoop_append, hq]
    exact hbad q

/-- C6 witness: the amended claim at `pre = [i = "3"]`, unknown key `"z"`. -/
theorem unknown_key_rejected_witness :
    from_parameter_string [("i", ['3']), ("z", ['1'])] =
      .error (.params .invalidName) :=
  (unknown_key_rejected [("i", ['3'])] [] "z" ['1'] (by decide) (by decide)).2
    { rounds := 3, output_length := 32 } rfl

/-- C7: `from_parameter_string` on the empty parameter string yields
`Params::default()` (rounds 10000, output length 32), and any key absent
from the input keeps its default value in the result. -/
theorem absent_keys_keep_defaults :
    from_parameter_string [] = .ok Params.default ∧
    (∀ ps p, from_parameter_string ps = .ok p →
      ((∀ e ∈ ps, e.1 ≠ "i") → p.rounds = 10000) ∧
      ((∀ e ∈ ps, e.1 ≠ "l") → p.output_length = 32)) := by
  refine ⟨rfl, fun ps p hok => ⟨fun hno => ?_, fun hno => ?_⟩⟩
  · exact (fromPSLoop_no_i Params.default ps p hok hno).trans rfl
  · exact (fromPSLoop_no_l Params.default ps p hok hno).trans rfl

/-- C7 witness: on `[l = "7"]` the absent key `i` keeps its default. -/
theorem absent_keys_keep_defaults_witness :
    ({ rounds := 10000, output_length := 7 } : Params).rounds = 10000 :=
  ((absent_keys_keep_defaults.2 [("l", ['7'])]
    { rounds := 10000, output_length := 7 } rfl).1 (by decide))

/-- C10: no minimum iteration count is enforced:
`from_parameter_string` accepts `i = 0` and any decimal `u32` value, and
`hash_password` with `rounds = 0` succeeds, passing `0` unchecked to the
derivation primitive. -/
theorem no_minimum_rounds :
    from_parameter_string [("i", ['0'])] = .ok { rounds := 0, output_length := 32 } ∧
    (∀ n, n < 2 ^ 32 → from_parameter_string [("i", decRender n)] =
      .ok { rounds := n, output_length := 32 }) ∧
    (∀ (derive : DeriveFn) pw salt bs len, saltDecode salt = .ok bs →
      hash_password derive pw none { rounds := 0, output_length := len } salt =
        .ok { algorithm := PBKDF2_SHA256, version := none,
              params := addDecimal (addDecimal [] "i" 0) "l" (len % 2 ^ 32),
              salt := some salt,
              hash := some (derive .Sha256 pw bs 0 len) }) := by
  refine ⟨rfl, fun n hn => ?_, fun derive pw salt bs len hs => ?_⟩
  · simp [from_parameter_string, fromPSLoop, parseDec_decRender n hn, Params.default]
  · simp only [hash_password, AlgorithmId.new, Option.getD, PBKDF2_SHA256,
      PBKDF2_SHA1, PBKDF2_SHA512, hs, to_parameter_string]
    rfl

/-- C10 witness: `i = 0` parses, and hashing with `rounds = 0` over the
salt `"AAAA"` returns the record with the primitive applied at rounds
`0`. -/
theorem no_minimum_rounds_witness :
    from_parameter_string [("i", decRender 0)] =
      .ok { rounds := 0, output_length := 32 } ∧
    hash_password (fun _ _ _ _ n => List.replicate n 9) [1] none
        { rounds := 0, output_length := 5 } "AAAA".data =
      .ok { algorithm := PBKDF2_SHA256, version := none,
            params := addDecimal (addDecimal [] "i" 0) "l" (5 % 2 ^ 32),
            salt := some "AAAA".data,
            hash := some ((fun (_ : AlgorithmId) (_ _ : List Nat) (_ n : Nat) =>
              List.replicate n 9) .Sha256 [1] [0, 0, 0] 0 5) } :=
  ⟨no_minimum_rounds.2.1 0 (by omega),
   no_minimum_rounds.2.2 (fun _ _ _ _ n => List.replicate n 9) [1] "AAAA".data
     [0, 0, 0] 5 rfl⟩

/-- C4: `hash_password`, for every password and parameters (and any
resolvable or absent algorithm identifier), fails with the Encoding error
— returning no record — whenever the encoded salt is malformed B64 or its
decoded raw length exceeds the 64-byte salt buffer. -/
theorem hash_password_bad_salt (derive : DeriveFn) (pw : List Nat)
    (algOpt : Option String) (params : Params) (salt : List Char)
    (a : AlgorithmId)
    (halg : AlgorithmId.new (algOpt.getD PBKDF2_SHA256) = .ok a)
    (hbad : b64Decode salt = none ∨
      ∃ bs, b64Decode salt = some bs ∧ 64 < bs.length) :
    hash_password derive pw algOpt params salt = .error .encoding := by
  have hsd : saltDecode salt = .error .encoding := by
    rcases hbad with h | ⟨bs, h1, h2⟩
    · rw [saltDecode, h]
    · rw [saltDecode, h1]
      simp [h2]
  simp only [hash_password, halg, hsd]

/-- C4 witness: with the algorithm absent, hashing fails with the Encoding
error on the non-B64 salt `"!!!!"` and on a 100-character salt whose
decoded length 75 exceeds 64 bytes. -/
theorem hash_password_bad_salt_witness :
    hash_password (fun _ _ _ _ _ => []) [] none Params.default "!!!!".data =
      .error .encoding ∧
    hash_password (fun _ _ _ _ _ => []) [] none Params.default
        (List.replicate 100 'A') = .error .encoding :=
  ⟨hash_password_bad_salt _ _ none Params.default "!!!!".data .Sha256 rfl
     (Or.inl rfl),
   hash_password_bad_salt _ _ none Params.default (List.replicate 100 'A')
     .Sha256 rfl (Or.inr ⟨List.replicate 75 0, rfl, by decide⟩)⟩

/-- C5: on every well-formed legacy string, `upgrade_mcf_hash` returns a
record whose algorithm is fixed to the SHA-256 identifier, whose version
is absent, whose params are serialized from the legacy rounds and an
output length equal to the decoded hash byte count, with the
padding-stripped salt and the decoded hash bytes. -/
theorem upgrade_mcf_hash_record (s sa ha : List Char) (r : Nat)
    (bytes : List Nat) (ps : ParamsString)
    (hp : parse_hash s = .ok (r, sa, ha))
    (hs : saltNew (b64_strip sa) = .ok (b64_strip sa))
    (hh : outputB64Decode (b64_strip ha) = .ok bytes)
    (ht : to_parameter_string { rounds := r, output_length := bytes.length } =
      .ok ps) :
    upgrade_mcf_hash s =
      .ok { algorithm := PBKDF2_SHA256, version := none, params := ps,
            salt := some (b64_strip sa), hash := some bytes } := by
  simp only [upgrade_mcf_hash, hp, hs, hh, ht]

/-- C5 witness: a legacy string with rounds 5000, an 8-character padded
salt and a 20-byte digest upgrades to the SHA-256 record with
`i = 5000`, `l = 20`. -/
theorem upgrade_mcf_hash_record_witness :
    upgrade_mcf_hash "$5000$c2FsdA==$AAAAAAAAAAAAAAAAAAAAAAAAAAA=".data =
      .ok { algorithm := PBKDF2_SHA256, version := none,
            params := [("i", ['5', '0', '0', '0']), ("l", ['2', '0'])],
            salt := some (b64_strip "c2FsdA==".data),
            hash := some (List.replicate 20 0) } :=
  upgrade_mcf_hash_record _ "c2FsdA==".data "AAAAAAAAAAAAAAAAAAAAAAAAAAA=".data 5000
    (List.replicate 20 0) [("i", ['5', '0', '0', '0']), ("l", ['2', '0'])]
    rfl (by rw [b64_strip_eq_dropWhile]; rfl)
    (by rw [b64_strip_eq_dropWhile]; rfl) rfl

/-- C8: when the optional algorithm identifier is absent, `hash_password`
resolves the effective algorithm to the SHA-256 variant: any returned
record carries the SHA-256 identifier, and on any decodable salt the
derivation primitive is dispatched with the SHA-256 variant. -/
theorem hash_password_default_sha256 :
    (∀ (derive : DeriveFn) pw params salt rec,
      hash_password derive pw none params salt = .ok rec →
      rec.algorithm = PBKDF2_SHA256) ∧
    (∀ (derive : DeriveFn) pw params salt bs, saltDecode salt = .ok bs →
      hash_password derive pw none params salt =
        .ok { algorithm := PBKDF2_SHA256, version := none,
              params := addDecimal (addDecimal [] "i" params.rounds) "l"
                (params.output_length % 2 ^ 32),
              salt := some salt,
              hash := some (derive .Sha256 pw bs params.rounds
                params.output_length) }) := by
  constructor
  · intro derive pw params salt rec h
    cases hsd : saltDecode salt with
    | error e =>
        simp only [hash_password, AlgorithmId.new, Option.getD, PBKDF2_SHA256,
          PBKDF2_SHA1, PBKDF2_SHA512, hsd] at h
        exact Except.noConfusion h
    | ok bs =>
        simp only [hash_password, AlgorithmId.new, Option.getD, PBKDF2_SHA256,
          PBKDF2_SHA1, PBKDF2_SHA512, hsd, to_parameter_string] at h
        injection h with h
        rw [← h]
        rfl
  · intro derive pw params salt bs hsd
    simp only [hash_password, AlgorithmId.new, Option.getD, PBKDF2_SHA256,
      PBKDF2_SHA1, PBKDF2_SHA512, hsd, to_parameter_string]
    rfl

/-- C8 witness: both parts at the salt `"AAAA"` with default params. -/
theorem hash_password_default_sha256_witness :
    PasswordHash.algorithm
      { algorithm := "pbkdf2-sha256", version := none,
        params := [("i", ['1', '0', '0', '0', '0']), ("l", ['3', '2'])],
        salt := some "AAAA".data, hash := some [3, 3] } = PBKDF2_SHA256 ∧
    hash_password (fun _ _ _ _ _ => ([3, 3] : List Nat)) [7] none
        Params.default "AAAA".data =
      .ok { algorithm := PBKDF2_SHA256, version := none,
            params := addDecimal (addDecimal [] "i" Params.default.rounds) "l"
              (Params.default.output_length % 2 ^ 32),
            salt := some "AAAA".data,
            hash := some ((fun _ _ _ _ _ => ([3, 3] : List Nat)) AlgorithmId.Sha256
              [7] [0, 0, 0] Params.default.rounds Params.default.output_length) } :=
  ⟨hash_password_default_sha256.1 (fun _ _ _ _ _ => [3, 3]) [7] Params.default
     "AAAA".data _ rfl,
   hash_password_default_sha256.2 (fun _ _ _ _ _ => [3, 3]) [7] Params.default
     "AAAA".data [0, 0, 0] rfl⟩

end Pbkdf2
